import Mathlib

/-
  Verification of the threshold-data reconstruction pipeline (threshold.py).

  Shallow embedding conventions:
  * Python exceptions are modelled with `Option`: a function that can raise
    returns `none` exactly on the inputs where the Python code raises.
  * Python floats are modelled as exact rationals (`ℚ`); all concrete inputs
    exercised by the theorems below were chosen so that every intermediate
    value is exactly representable in binary floating point, making the ℚ
    values coincide with the IEEE-754 doubles the script computes.
  * `int(s, base)` is modelled by `pyIntBase` (optional single sign followed
    by base-`base` digits; the exotic forms `0x` prefixes, underscores and
    surrounding whitespace never occur in the data format and are omitted).
  * `format(v, '08b')` / `format(v, '04b')` are modelled by `formatBin`,
    including the padding-only (never truncating) behaviour and the leading
    minus sign for negative values.
  * The `while` loop of `event_finder` is modelled with explicit fuel
    (`efLoop`); `none` as outer result means the loop has not finished within
    the given fuel (in particular it lets us prove non-termination).
-/

namespace Threshold

/-! ### Character and number parsing helpers -/

def digitChar (d : Nat) : Char := Char.ofNat (48 + d)

/-- Value of a digit or letter character, as Python's `int(_, base)` sees it. -/
def digitVal (c : Char) : Option Nat :=
  if '0' ≤ c ∧ c ≤ '9' then some (c.toNat - 48)
  else if 'a' ≤ c ∧ c ≤ 'z' then some (c.toNat - 87)
  else if 'A' ≤ c ∧ c ≤ 'Z' then some (c.toNat - 55)
  else none

/-- Value of a single decimal-digit character; `none` otherwise
    (models Python `int(c)` for the single characters fed to it). -/
def decVal (c : Char) : Option Nat :=
  if '0' ≤ c ∧ c ≤ '9' then some (c.toNat - 48) else none

def digitsValGo (base : Nat) : List Char → Nat → Option Nat
  | [], acc => some acc
  | c :: cs, acc =>
    match digitVal c with
    | some d => if d < base then digitsValGo base cs (acc * base + d) else none
    | none => none

/-- Model of Python `int(s, base)`: optional sign, then digits of `base`. -/
def pyIntBase (base : Nat) (s : String) : Option Int :=
  match s.toList with
  | '+' :: cs => if cs = [] then none else (digitsValGo base cs 0).map Int.ofNat
  | '-' :: cs => if cs = [] then none else (digitsValGo base cs 0).map (fun n => -(n : Int))
  | cs => if cs = [] then none else (digitsValGo base cs 0).map Int.ofNat

def int16 (s : String) : Option Int := pyIntBase 16 s
def int10 (s : String) : Option Int := pyIntBase 10 s
def int2 (s : String) : Option Int := pyIntBase 2 s

/-! ### Kernel-computable rational arithmetic

The `Rat` field operations of the ambient library are `@[irreducible]`, so a
closed pipeline run could not be evaluated inside proofs through them.  The
operations below build the very same normalized rationals through `mkRat`;
the `q*_eq` bridge lemmas (proved further down) show they agree with the
field structure of `ℚ`, so nothing about the model changes. -/

def qadd (x y : ℚ) : ℚ := mkRat (x.num * y.den + y.num * x.den) (x.den * y.den)

def qsub (x y : ℚ) : ℚ := mkRat (x.num * y.den - y.num * x.den) (x.den * y.den)

def qmul (x y : ℚ) : ℚ := mkRat (x.num * y.num) (x.den * y.den)

def qdiv (x y : ℚ) : ℚ :=
  if y.num < 0 then mkRat (-(x.num * y.den)) (x.den * y.num.natAbs)
  else mkRat (x.num * y.den) (x.den * y.num.natAbs)

def qneg (x : ℚ) : ℚ := mkRat (-x.num) x.den

def qofInt (n : Int) : ℚ := mkRat n 1

def qofNat (n : Nat) : ℚ := mkRat (Int.ofNat n) 1

/-- Magnitude part of Python `float(s)` for the decimal forms in the data. -/
def parseFloatMag (cs : List Char) : Option ℚ :=
  let ip := cs.takeWhile (fun c => c ≠ '.')
  let rest := cs.dropWhile (fun c => c ≠ '.')
  match rest with
  | [] =>
    if ip = [] then none
    else (digitsValGo 10 ip 0).map (fun n => qofNat n)
  | _ :: fp =>
    if fp.contains '.' then none
    else if ip = [] ∧ fp = [] then none
    else
      match digitsValGo 10 ip 0, digitsValGo 10 fp 0 with
      | some a, some b => some (qadd (qofNat a) (qdiv (qofNat b) (qofNat (10 ^ fp.length))))
      | _, _ => none

/-- Model of Python `float(s)` restricted to plain decimal notation. -/
def parseFloatQ (s : String) : Option ℚ :=
  match s.toList with
  | '+' :: cs => parseFloatMag cs
  | '-' :: cs => (parseFloatMag cs).map qneg
  | cs => parseFloatMag cs

/-! ### Rational helpers: floor, truncation, Python `round`, formatting -/

def qfloor (q : ℚ) : Int := Int.fdiv q.num (q.den : Int)

def qabs (q : ℚ) : ℚ := if q < 0 then qneg q else q

/-- Truncation toward zero (`math.modf`'s integer part, `str`-split day part). -/
def truncQ (q : ℚ) : Int := if q < 0 then -(qfloor (qneg q)) else qfloor q

/-- The fractional part recovered by `str(x).split('.')` followed by
    `float('.' + frac)`: always the non-negative fractional magnitude. -/
def fracAbsQ (q : ℚ) : ℚ := qsub (qabs q) (qofInt (qfloor (qabs q)))

/-- Python 3 `round` to an integer: round half to even. -/
def pyRound (q : ℚ) : Int :=
  let f := qfloor q
  let r := qsub q (qofInt f)
  if r < mkRat 1 2 then f
  else if mkRat 1 2 < r then f + 1
  else if f % 2 = 0 then f else f + 1

def natDecGo : Nat → Nat → List Char
  | 0, _ => []
  | fuel+1, n => if n = 0 then [] else natDecGo fuel (n / 10) ++ [digitChar (n % 10)]

/-- Decimal digit string of a natural number (Python `str` on a nonneg int). -/
def natDec (n : Nat) : String := if n = 0 then "0" else String.mk (natDecGo n n)

/-- Python `str` on an int. -/
def intDec (i : Int) : String :=
  if i < 0 then String.append "-" (natDec i.natAbs) else natDec i.toNat

/-- Python `'{0:.PRECf}'.format(q)`: fixed-point with round-half-even. -/
def fmtFixed (prec : Nat) (q : ℚ) : String :=
  let n : Nat := (pyRound (qmul (qabs q) (qofNat (10 ^ prec)))).toNat
  let ds := if n = 0 then ['0'] else natDecGo n n
  let ds := if ds.length ≤ prec then List.replicate (prec + 1 - ds.length) '0' ++ ds else ds
  let sign := if q < 0 then "-" else ""
  sign ++ String.mk (ds.take (ds.length - prec)) ++ "." ++ String.mk (ds.drop (ds.length - prec))

/-! ### Binary formatting: Python `format(v, '0Nb')` -/

def natBinGo : Nat → Nat → List Char
  | 0, _ => []
  | fuel+1, n => if n = 0 then [] else natBinGo fuel (n / 2) ++ [digitChar (n % 2)]

def natBin (n : Nat) : List Char := if n = 0 then ['0'] else natBinGo n n

def padZero (w : Nat) (l : List Char) : List Char :=
  List.replicate (w - l.length) '0' ++ l

/-- Python `format(v, '0{w}b')`: binary digits zero-padded to total width `w`
    (a negative value gets a leading minus sign counted inside the width);
    wider values are NOT truncated. -/
def formatBin (v : Int) (w : Nat) : List Char :=
  if v < 0 then '-' :: padZero (w - 1) (natBin v.natAbs) else padZero w (natBin v.toNat)

/-! ### String utilities: whitespace split and slices -/

def isWsChar (c : Char) : Bool := c = ' ' || c = '\t' || c = '\n' || c = '\r'

def splitWsGo : List Char → List Char → List String
  | [], cur => if cur.isEmpty then [] else [String.mk cur.reverse]
  | c :: rest, cur =>
    if isWsChar c then
      if cur.isEmpty then splitWsGo rest []
      else String.mk cur.reverse :: splitWsGo rest []
    else splitWsGo rest (c :: cur)

/-- Python `str.split()` with no argument. -/
def splitWs (s : String) : List String := splitWsGo s.toList []

/-- Python slice `s[a:b]`. -/
def pySlice (s : String) (a b : Nat) : String :=
  String.mk ((s.toList.drop a).take (b - a))

/-- Python slice `s[a:]`. -/
def pySliceFrom (s : String) (a : Nat) : String := String.mk (s.toList.drop a)

/-! ### `TMCCount` (bit-field decoder for the 8-bit edge words) -/

structure TMCCount where
  word : String
  bin_word : List Char
  edge_count : List Char
  edge_valid : Bool
  bit_7 : Char
deriving DecidableEq

/-- The field extraction of `TMCCount.__init__` once `int(word, 16)` gave `v`. -/
def tmcOfVal (w : String) (v : Int) : TMCCount :=
  let b := formatBin v 8
  { word := w
    bin_word := b
    edge_count := b.drop 3
    edge_valid := b.getD 2 'x' = '1'
    bit_7 := b.getD 0 'x' }

/-- `TMCCount(word)`: `none` exactly when `int(word, 16)` raises. -/
def tmcCount (w : String) : Option TMCCount := (int16 w).map (tmcOfVal w)

/-! ### `DAQStatus` (bit-field decoder for the 4-bit status nibble) -/

structure DAQStatus where
  word : String
  bin_word : List Char
  bit_0 : Char
  bit_1 : Char
  bit_2 : Char
  bit_3 : Char
  is_ok : Bool
deriving DecidableEq

/-- Body of `DAQStatus.__init__` once `int(word, 16)` gave `v`; the
    `int(self.bit_i)` calls can each raise (they do when `v < 0`, because the
    minus sign lands in one of the four inspected positions). -/
def daqStatusOfVal (w : String) (v : Int) : Option DAQStatus :=
  let b := formatBin v 4
  (decVal (b.getD 3 'x')).bind fun d0 =>
  (decVal (b.getD 2 'x')).bind fun d1 =>
  (decVal (b.getD 1 'x')).bind fun d2 =>
  (decVal (b.getD 0 'x')).bind fun d3 =>
  some { word := w
         bin_word := b
         bit_0 := b.getD 3 'x'
         bit_1 := b.getD 2 'x'
         bit_2 := b.getD 1 'x'
         bit_3 := b.getD 0 'x'
         is_ok := if 0 < d0 + d1 + d2 + d3 then false else true }

def daqStatus (w : String) : Option DAQStatus := (int16 w).bind (daqStatusOfVal w)

/-! ### `DAQLine` (one decoded record) -/

structure DAQLine where
  words : List String
  re_1 : TMCCount
  fe_1 : TMCCount
  re_2 : TMCCount
  fe_2 : TMCCount
  re_3 : TMCCount
  fe_3 : TMCCount
  re_4 : TMCCount
  fe_4 : TMCCount
  clock_count : String
  pps : String
  utc_time : String
  utc_date : String
  gps_valid : Option Bool
  n_gps : Int
  daq_status : DAQStatus
  time_delay : String
deriving DecidableEq

/-- `DAQLine(words)`.  Fewer than 16 fields raise `IndexError`; extra fields
    beyond the 16 used are ignored.  A GPS field other than `A`/`V` takes
    neither branch, so the attribute is simply never set (`gps_valid = none`)
    and no exception is raised. -/
def daqLine (ws : List String) : Option DAQLine :=
  match ws with
  | w0 :: w1 :: w2 :: w3 :: w4 :: w5 :: w6 :: w7 :: w8 :: w9 :: w10 :: w11 :: w12 :: w13 :: w14 :: w15 :: _ =>
    (tmcCount w1).bind fun r1 =>
    (tmcCount w2).bind fun f1 =>
    (tmcCount w3).bind fun r2 =>
    (tmcCount w4).bind fun f2 =>
    (tmcCount w5).bind fun r3 =>
    (tmcCount w6).bind fun f3 =>
    (tmcCount w7).bind fun r4 =>
    (tmcCount w8).bind fun f4 =>
    (int10 w13).bind fun ng =>
    (daqStatus w14).bind fun st =>
    some { words := ws
           re_1 := r1, fe_1 := f1, re_2 := r2, fe_2 := f2
           re_3 := r3, fe_3 := f3, re_4 := r4, fe_4 := f4
           clock_count := w0, pps := w9, utc_time := w10, utc_date := w11
           gps_valid := if w12 = "A" then some true else if w12 = "V" then some false else none
           n_gps := ng, daq_status := st, time_delay := w15 }
  | _ => none

/-- The 8 edge measurements in the fixed `edge_list` order
    `re_1, fe_1, re_2, fe_2, re_3, fe_3, re_4, fe_4`. -/
def edgeList (d : DAQLine) : List TMCCount :=
  [d.re_1, d.fe_1, d.re_2, d.fe_2, d.re_3, d.fe_3, d.re_4, d.fe_4]

/-! ### `Event` (per-block reconstruction) -/

/-- Clock-frequency estimate of `Event.__init__`:
    `freq = pps(last) - pps(first)`; `+= 0xFFFFFFFF` if negative;
    `25000000` if the (corrected) result is exactly zero. -/
def ppsFreq (firstPps lastPps : Int) : Int :=
  let freq0 := lastPps - firstPps
  let freq1 := if freq0 < 0 then freq0 + 4294967295 else freq0
  if freq1 = 0 then 25000000 else freq1

structure Event where
  t_abs : Int
  counts : List (List ℚ)
  utc_day : String
deriving DecidableEq

def mapOpt {α β : Type} (f : α → Option β) : List α → Option (List β)
  | [] => some []
  | a :: as => (f a).bind fun b => (mapOpt f as).map (fun bs => b :: bs)

/-- One edge slot of one line: `none` as inner value when the edge is not
    valid; valid edges contribute `1.25 * int(edge_count, 2) + t_clk`. -/
def edgeTimeOf (t_clk : ℚ) (e : TMCCount) : Option (Option ℚ) :=
  if e.edge_valid then
    (int2 (String.mk e.edge_count)).map (fun c => some (qadd (qmul (mkRat 5 4) (qofInt c)) t_clk))
  else some none

/-- All 8 edge slots of one line, after computing the line's clock offset
    `t_clk = 1e9 * (clock_count - pps) / freq`. -/
def lineEdgeTimes (freq : Int) (d : DAQLine) : Option (List (Option ℚ)) :=
  (int16 d.clock_count).bind fun clock =>
  (int16 d.pps).bind fun pps =>
  mapOpt (edgeTimeOf (qdiv (qmul (qofInt 1000000000) (qsub (qofInt clock) (qofInt pps))) (qofInt freq))) (edgeList d)

/-- Append each valid edge time of one line to its per-slot list. -/
def appendTimes (counts : List (List ℚ)) (ts : List (Option ℚ)) : List (List ℚ) :=
  List.zipWith (fun l t => l ++ t.toList) counts ts

def assembleLines (freq : Int) : List DAQLine → List (List ℚ) → Option (List (List ℚ))
  | [], cs => some cs
  | d :: ds, cs => (lineEdgeTimes freq d).bind fun ts => assembleLines freq ds (appendTimes cs ts)

def initCounts : List (List ℚ) := [[], [], [], [], [], [], [], []]

/-- Orphan trimming for one channel: when the lengths differ, `pop(-1)` the
    longer list (exactly one element). -/
def trimPair (r f : List ℚ) : List ℚ × List ℚ :=
  if r.length = f.length then (r, f)
  else if f.length < r.length then (r.dropLast, f)
  else (r, f.dropLast)

def trimAll (cs : List (List ℚ)) : List (List ℚ) :=
  match cs with
  | r1 :: f1 :: r2 :: f2 :: r3 :: f3 :: r4 :: f4 :: rest =>
    (trimPair r1 f1).1 :: (trimPair r1 f1).2 ::
    (trimPair r2 f2).1 :: (trimPair r2 f2).2 ::
    (trimPair r3 f3).1 :: (trimPair r3 f3).2 ::
    (trimPair r4 f4).1 :: (trimPair r4 f4).2 :: rest
  | l => l

/-- `Event(event_lines)`: split and decode every line, anchor the event time,
    estimate the clock frequency with `ppsFreq`, assemble the 8 per-slot edge
    time lists and trim orphans. -/
def mkEvent (event_lines : List String) : Option Event :=
  (mapOpt (fun l => daqLine (splitWs l)) event_lines).bind fun dls =>
  dls.head?.bind fun first =>
  dls.getLast?.bind fun lastLine =>
  (parseFloatQ (pySlice first.utc_time 0 2)).bind fun hh =>
  (parseFloatQ (pySlice first.utc_time 2 4)).bind fun mm =>
  (parseFloatQ (pySliceFrom first.utc_time 4)).bind fun ss =>
  (int10 first.time_delay).bind fun delay =>
  let t_abs := pyRound (qadd (qadd (qadd (qmul hh (qofInt 3600)) (qmul mm (qofInt 60))) ss)
    (qdiv (qofInt delay) (qofInt 1000)))
  (int16 first.pps).bind fun pf =>
  (int16 lastLine.pps).bind fun pl =>
  (assembleLines (ppsFreq pf pl) dls initCounts).bind fun raw =>
  some { t_abs := t_abs, counts := trimAll raw, utc_day := first.utc_date }

/-! ### `process_events` (timestamp formatter) -/

/-- Modelled from the spec: the `gcal2jd`-equivalent Gregorian-to-Julian
    conversion supplied by the external `jdcal` dependency (not part of this
    repository).  Returns the pair `(MJD_0, mjd)` whose sum is the Julian day
    at midnight; `ipart`-style truncation toward zero, `2400000.5 = 4800001/2`,
    `day - 2432075.5 - 0.5 = day - 2432076`. -/
def gcal2jd (year month day : Int) : ℚ × ℚ :=
  let a := qofInt (truncQ (qdiv (qsub (qofInt month) (qofInt 14)) (qofInt 12)))
  let jd0 := qofInt (truncQ (qdiv (qmul (qofInt 1461) (qadd (qadd (qofInt year) (qofInt 4800)) a)) (qofInt 4)))
  let jd1 := qadd jd0 (qofInt (truncQ (qdiv (qmul (qofInt 367) (qsub (qsub (qofInt month) (qofInt 2)) (qmul (qofInt 12) a))) (qofInt 12))))
  let x := qofInt (truncQ (qdiv (qadd (qadd (qofInt year) (qofInt 4900)) a) (qofInt 100)))
  let jd2 := qsub jd1 (qofInt (truncQ (qdiv (qmul (qofInt 3) x) (qofInt 4))))
  let jd3 := qsub (qadd jd2 (qofInt day)) (qofInt 2432076)
  (mkRat 4800001 2, jd3)

def gcal2jdSum (year month day : Int) : ℚ :=
  qadd (gcal2jd year month day).1 (gcal2jd year month day).2

/-- Python truthiness `and` on floats: `a and b` is `a` when `a == 0.0`,
    otherwise `b`. -/
def pyAnd (a b : ℚ) : ℚ := if a = 0 then a else b

/-- The day-rollover block of `process_events` (lines 211-216): the running
    `jul_day` is incremented when
    `t_rise > 1 or t_fall > 1 or (t_rise and t_fall) > 1`, and `1` is
    subtracted from each value strictly exceeding `1`. -/
def dayAdjust (jd : Int) (tr tf : ℚ) : Int × ℚ × ℚ :=
  let jd2 := if 1 < tr ∨ 1 < tf ∨ 1 < pyAnd tr tf then jd + 1 else jd
  let tr2 := if 1 < tr then qsub tr (qofInt 1) else tr
  let tf2 := if 1 < tf then qsub tf (qofInt 1) else tf
  (jd2, tr2, tf2)

/-- The body of one `j` iteration of `process_events`: `out_line` is rebuilt
    from scratch (the source assigns, not appends, at its line 203), so the
    returned string is only this pair's record. -/
def pairStep (sat ch : String) (jf : ℚ) (jd : Int) (riseNs fallNs : ℚ) : Int × String :=
  let trS := qdiv riseNs (qofInt 1000000000)
  let tfS := qdiv fallNs (qofInt 1000000000)
  let tot := qmul (qsub tfS trS) (qofInt 1000000000)
  let tr := qadd (qdiv trS (qofInt 86400)) jf
  let tf := qadd (qdiv tfS (qofInt 86400)) jf
  let adj := dayAdjust jd tr tf
  (adj.1,
    sat ++ "." ++ ch ++ "  " ++ intDec adj.1 ++ "  " ++ fmtFixed 16 adj.2.1 ++ "  " ++
      fmtFixed 16 adj.2.2 ++ " " ++ " " ++ fmtFixed 2 tot ++ "\n")

/-- The `j` loop over one channel: `j` is the current index, the second `Nat`
    argument counts the remaining iterations; `flist[j]` raises `IndexError`
    (`none`) when the fall list is shorter than the rise list. -/
def channelLoop (sat ch : String) (jf : ℚ) (rlist flist : List ℚ) :
    Nat → Nat → Int → String → Option (Int × String)
  | _, 0, jd, out => some (jd, out)
  | j, k+1, jd, _ =>
    match rlist.get? j, flist.get? j with
    | some riseNs, some fallNs =>
      let st := pairStep sat ch jf jd riseNs fallNs
      channelLoop sat ch jf rlist flist (j+1) k st.1 st.2
    | _, _ => none

/-- One channel of `process_events`: `jul_day` is reset to `int(const)` and
    `out_line` to `''` before the pair loop; the appended string is whatever
    `out_line` holds after the loop (the last pair's record, or `''`). -/
def channelText (sat ch : String) (constDay : Int) (jf : ℚ) (rlist flist : List ℚ) : Option String :=
  (channelLoop sat ch jf rlist flist 0 rlist.length constDay "").map Prod.snd

/-- The `i in range(0, 8, 2)` loop of `process_events`: four channel strings
    (channels `1,2,3,4`), in order, one `print_out` entry each. -/
def formatEvent (e : Event) (sat : String) (constDay : Int) (jf : ℚ) : Option (List String) :=
  (channelText sat "1" constDay jf (e.counts.getD 0 []) (e.counts.getD 1 [])).bind fun s1 =>
  (channelText sat "2" constDay jf (e.counts.getD 2 []) (e.counts.getD 3 [])).bind fun s2 =>
  (channelText sat "3" constDay jf (e.counts.getD 4 []) (e.counts.getD 5 [])).bind fun s3 =>
  (channelText sat "4" constDay jf (e.counts.getD 6 []) (e.counts.getD 7 [])).bind fun s4 =>
  some [s1, s2, s3, s4]

/-- `process_events(event_block, sat_num)`: build the `Event`, derive the
    Julian day (`gcal2jd` sum plus `t_abs/86400`, split by `str(...)` into
    integer day and fractional part), then format the four channels. -/
def processEvents (event_block : List String) (sat_num : String) : Option (List String) :=
  (mkEvent event_block).bind fun event =>
  (int10 (pySlice event.utc_day 0 2)).bind fun day =>
  (int10 (pySlice event.utc_day 2 4)).bind fun month =>
  (int10 (String.append "20" (pySliceFrom event.utc_day 4))).bind fun year =>
  let julian : ℚ := qadd (gcal2jdSum year month day) (qdiv (qofInt event.t_abs) (qofInt 86400))
  formatEvent event sat_num (truncQ julian) (fracAbsQ julian)

/-! ### `event_finder` (event segmenter) -/

/-- `format(int(line[9:11], 16), '08b')[0]`: the event-start character of a
    raw line; `none` when `int` raises. -/
def checkBit (line : String) : Option Char :=
  (int16 (pySlice line 9 11)).map fun v => (formatBin v 8).getD 0 'x'

/-- The `while index < len(data)` loop of `event_finder`, with explicit fuel.
    Outer `none`: the loop has not finished within `fuel` iterations.
    `some none`: a Python exception escaped (decode failure).
    `some (some recs)`: normal return of `event_text`.
    Note the final branch: when the start character is `'0'` (or not a binary
    digit) while `flag` is `False`, no branch of the `if/elif` chain fires and
    `index` is not advanced, so the loop state repeats verbatim. -/
def efLoop (data : List String) (sat : String) :
    Nat → Nat → Bool → List String → List String → Option (Option (List String))
  | 0, _, _, _, _ => none
  | fuel+1, index, flag, single, acc =>
    match data.get? index with
    | none =>
      if single = [] then some (some acc)
      else
        match processEvents single sat with
        | none => some none
        | some recs => some (some (acc ++ recs))
    | some line =>
      match checkBit line with
      | none => some none
      | some c =>
        if c = '1' ∧ flag = false then
          efLoop data sat fuel (index+1) true (single ++ [line]) acc
        else if c = '0' ∧ flag = true then
          efLoop data sat fuel (index+1) flag (single ++ [line]) acc
        else if c = '1' ∧ flag = true then
          match processEvents single sat with
          | none => some none
          | some recs => efLoop data sat fuel index false [] (acc ++ recs)
        else
          efLoop data sat fuel index flag single acc

/-- `event_finder(data, sat_num)`, run with enough fuel for any terminating
    execution (each line is visited at most twice). -/
def eventFinder (data : List String) (sat : String) : Option (Option (List String)) :=
  efLoop data sat (2 * data.length + 2) 0 false [] []

/-! ### Concrete input records used by the theorems

All lines follow the 16-field record format of the DAQ card (compare the
"Example of event" comment in the source).  The edge bytes used are
`80` (start marker only), `A0` (start marker + valid edge, count 0),
`20` (valid edge, count 0), `00` (nothing). -/

/-- A well-formed one-line event whose channel 1 fires once (rise `A0`,
    fall `20`, both count 0). -/
def goodLine : String :=
  "00000000 A0 20 00 00 00 00 00 00 00000000 000000.000 010100 A 03 0 +0000"

/-- A line opening an event block but with an unparsable satellite-count
    field (`zz`), so its decode raises. -/
def malLine : String :=
  "00000000 80 00 00 00 00 00 00 00 00000000 000000.000 010100 A zz 0 +0000"

/-- A line whose first edge byte is `00`: the event-start bit is unset. -/
def idleLine : String :=
  "00000000 00 00 00 00 00 00 00 00 00000000 000000.000 010100 A 03 0 +0000"

/-- Event block whose channel 1 collects three rising edges and no falling
    edge: line 1 has rise `A0`, lines 2 and 3 have rise `20`. -/
def imbLine1 : String :=
  "00000000 A0 00 00 00 00 00 00 00 00000000 000000.000 010100 A 03 0 +0000"

def imbLine2 : String :=
  "00000000 20 00 00 00 00 00 00 00 00000000 000000.000 010100 A 03 0 +0000"

def imbBlock : List String := [imbLine1, imbLine2, imbLine2]

/-- Two-line event block whose channel 1 fires twice (once per line); the
    second line's clock count `0FB75043` (= 263671875) puts the second pair at
    day fraction `0.5 + 1/8192`, exactly representable in both binary floating
    point and 16 printed decimals. -/
def twoPairLine2 : String :=
  "0FB75043 20 20 00 00 00 00 00 00 00000000 000000.000 010100 A 03 0 +0000"

def twoPairBlock : List String := [goodLine, twoPairLine2]

/-- Two-line event block engineered so that the (only) pair's rise and fall
    fractional-day values are computed as exactly `1.0`: the event starts at
    noon (`t_abs = 43200`), the pps references `0` and `1` give `freq = 1`,
    and line 1's clock count `00015180` (= 86400) puts the edge exactly one
    half day after noon.  Every intermediate value is a dyadic rational, so
    IEEE-754 doubles compute the same numbers. -/
def boundaryLine1 : String :=
  "00015180 A0 20 00 00 00 00 00 00 00000000 120000.000 010100 A 03 0 +0000"

def boundaryLine2 : String :=
  "00000000 00 00 00 00 00 00 00 00 00000001 120000.000 010100 A 03 0 +0000"

def boundaryBlock : List String := [boundaryLine1, boundaryLine2]

/-- The 16 fields of `goodLine`, for the line-decoder theorems. -/
def goodFields : List String :=
  ["00000000", "A0", "20", "00", "00", "00", "00", "00", "00",
   "00000000", "000000.000", "010100", "A", "03", "0", "+0000"]

/-- `goodFields` with a 17th, extra field appended. -/
def seventeenFields : List String := goodFields ++ ["77"]

/-- `goodFields` with the GPS-validity field replaced by `X` (neither `A`
    nor `V`). -/
def badGpsFields : List String :=
  ["00000000", "A0", "20", "00", "00", "00", "00", "00", "00",
   "00000000", "000000.000", "010100", "X", "03", "0", "+0000"]

/-- Re-encoding of the three decoded sub-fields of an edge word, following
    the spec's field layout: event-start is bit 7, valid is bit 5, and the
    count occupies bits 0-4 (bit 6 is not represented). -/
def tmcReencode (t : TMCCount) : Int :=
  (if t.bit_7 = '1' then 128 else 0) + (if t.edge_valid then 32 else 0) +
    (int2 (String.mk t.edge_count)).getD 0

end Threshold

/-! ## Bridge lemmas: the kernel-computable rational operations agree with
    the field structure of `ℚ` -/

namespace Threshold

theorem qadd_eq (x y : ℚ) : qadd x y = x + y := by
  unfold qadd
  rw [Rat.mkRat_eq_div]
  have hx : ((x.den : ℚ)) ≠ 0 := by positivity
  have hy : ((y.den : ℚ)) ≠ 0 := by positivity
  conv_rhs => rw [← Rat.num_div_den x, ← Rat.num_div_den y]
  push_cast
  field_simp

theorem qsub_eq (x y : ℚ) : qsub x y = x - y := by
  unfold qsub
  rw [Rat.mkRat_eq_div]
  have hx : ((x.den : ℚ)) ≠ 0 := by positivity
  have hy : ((y.den : ℚ)) ≠ 0 := by positivity
  conv_rhs => rw [← Rat.num_div_den x, ← Rat.num_div_den y]
  push_cast
  field_simp
  ring

theorem qmul_eq (x y : ℚ) : qmul x y = x * y := by
  unfold qmul
  rw [Rat.mkRat_eq_div]
  have hx : ((x.den : ℚ)) ≠ 0 := by positivity
  have hy : ((y.den : ℚ)) ≠ 0 := by positivity
  conv_rhs => rw [← Rat.num_div_den x, ← Rat.num_div_den y]
  push_cast
  field_simp

theorem qdiv_eq (x y : ℚ) : qdiv x y = x / y := by
  unfold qdiv
  rcases lt_trichotomy y.num 0 with h | h | h
  · rw [if_pos h, Rat.mkRat_eq_div]
    have hx : ((x.den : ℚ)) ≠ 0 := by positivity
    have hy : ((y.den : ℚ)) ≠ 0 := by positivity
    have hynq : ((y.num : ℚ)) < 0 := by exact_mod_cast h
    have habs : ((y.num.natAbs : ℚ)) = -(y.num : ℚ) := by
      rw [Int.cast_natAbs, Int.cast_abs, abs_of_neg hynq]
    conv_rhs => rw [← Rat.num_div_den x, ← Rat.num_div_den y]
    push_cast [habs]
    field_simp
  · have hy0 : y = 0 := by
      rw [← Rat.num_div_den y, h]; simp
    rw [if_neg (by omega), h, hy0]
    simp [Rat.mkRat_eq_div]
  · rw [if_neg (by omega), Rat.mkRat_eq_div]
    have hx : ((x.den : ℚ)) ≠ 0 := by positivity
    have hy : ((y.den : ℚ)) ≠ 0 := by positivity
    have hynq : (0:ℚ) < ((y.num : ℚ)) := by exact_mod_cast h
    have habs : ((y.num.natAbs : ℚ)) = (y.num : ℚ) := by
      rw [Int.cast_natAbs, Int.cast_abs, abs_of_pos hynq]
    conv_rhs => rw [← Rat.num_div_den x, ← Rat.num_div_den y]
    push_cast [habs]
    field_simp

theorem qneg_eq (x : ℚ) : qneg x = -x := by
  unfold qneg
  rw [Rat.mkRat_eq_div]
  conv_rhs => rw [← Rat.num_div_den x]
  push_cast
  ring

theorem qofInt_eq (n : Int) : qofInt n = (n : ℚ) := by
  unfold qofInt
  rw [Rat.mkRat_eq_div]
  simp

theorem qofNat_eq (n : Nat) : qofNat n = (n : ℚ) := by
  unfold qofNat
  rw [Rat.mkRat_eq_div]
  simp

theorem qabs_eq (q : ℚ) : qabs q = |q| := by
  unfold qabs
  rcases lt_or_le q 0 with h | h
  · rw [if_pos h, qneg_eq, abs_of_neg h]
  · rw [if_neg (not_lt.mpr h), abs_of_nonneg h]

/-! ## Helper lemmas about the binary formatter and `Option` plumbing -/

theorem mem_natBinGo {c : Char} :
    ∀ fuel n, c ∈ natBinGo fuel n → c = '0' ∨ c = '1' := by
  intro fuel
  induction fuel with
  | zero => intro n h; simp [natBinGo] at h
  | succ f ih =>
    intro n h
    simp only [natBinGo] at h
    by_cases hn : n = 0
    · rw [if_pos hn] at h; simp at h
    · rw [if_neg hn] at h
      rcases List.mem_append.mp h with h1 | h2
      · exact ih _ h1
      · have hc : c = digitChar (n % 2) := by simpa using h2
        rcases Nat.mod_two_eq_zero_or_one n with h0 | h1
        · left; rw [hc, h0]; decide
        · right; rw [hc, h1]; decide

theorem mem_natBin {c : Char} {n : Nat} (h : c ∈ natBin n) : c = '0' ∨ c = '1' := by
  unfold natBin at h
  by_cases hn : n = 0
  · rw [if_pos hn] at h; left; simpa using h
  · rw [if_neg hn] at h; exact mem_natBinGo n n h

theorem mem_padZero {c : Char} {w : Nat} {l : List Char} (h : c ∈ padZero w l) :
    c = '0' ∨ c ∈ l := by
  unfold padZero at h
  rcases List.mem_append.mp h with h1 | h2
  · left; exact (List.eq_of_mem_replicate h1)
  · right; exact h2

theorem length_padZero (w : Nat) (l : List Char) : w ≤ (padZero w l).length := by
  unfold padZero
  simp [List.length_append, List.length_replicate]
  omega

theorem getD_mem : ∀ (l : List Char) (i : Nat) (d : Char), i < l.length → l.getD i d ∈ l := by
  intro l
  induction l with
  | nil => intro i d h; simp at h
  | cons a t ih =>
    intro i d h
    cases i with
    | zero => simp [List.getD]
    | succ j =>
      rw [List.getD_cons_succ]
      exact List.mem_cons_of_mem _ (ih j d (by simpa using h))

theorem formatBin_chars {v : Int} (hv : 0 ≤ v) (w : Nat) {c : Char}
    (h : c ∈ formatBin v w) : c = '0' ∨ c = '1' := by
  unfold formatBin at h
  rw [if_neg (not_lt.mpr hv)] at h
  rcases mem_padZero h with h0 | h1
  · left; exact h0
  · exact mem_natBin h1

theorem formatBin_len {v : Int} (hv : 0 ≤ v) (w : Nat) : w ≤ (formatBin v w).length := by
  unfold formatBin
  rw [if_neg (not_lt.mpr hv)]
  exact length_padZero w _

theorem formatBin_neg_head {v : Int} (hv : v < 0) (w : Nat) :
    (formatBin v w).getD 0 'x' = '-' := by
  unfold formatBin
  rw [if_pos hv]
  rfl

theorem decVal_of_bin {c : Char} (h : c = '0' ∨ c = '1') : ∃ d, decVal c = some d := by
  rcases h with h | h <;> subst h
  · exact ⟨0, by decide⟩
  · exact ⟨1, by decide⟩

theorem optBind_isSome {α β : Type} (x : Option α) (f : α → Option β) :
    ((x.bind f).isSome = true) ↔ ∃ a, x = some a ∧ (f a).isSome = true := by
  cases x <;> simp

theorem optBind_constNone {α β : Type} (x : Option α) :
    (x.bind fun _ => (none : Option β)) = none := by
  cases x <;> rfl

theorem get?_isSome_of_lt {α : Type} : ∀ (l : List α) (n : Nat), n < l.length →
    ∃ a, l.get? n = some a := by
  intro l
  induction l with
  | nil => intro n h; simp at h
  | cons a t ih =>
    intro n h
    cases n with
    | zero => exact ⟨a, rfl⟩
    | succ m => exact ih m (by simpa using h)

/-! ## Helper lemmas about the channel loop -/

theorem channelLoop_isSome (sat ch : String) (jf : ℚ) (rlist flist : List ℚ)
    (hrf : rlist.length ≤ flist.length) :
    ∀ (k j : Nat) (jd : Int) (out : String), j + k = rlist.length →
      ∃ p, channelLoop sat ch jf rlist flist j k jd out = some p := by
  intro k
  induction k with
  | zero => intro j jd out _; exact ⟨(jd, out), rfl⟩
  | succ m ih =>
    intro j jd out hj
    have hjr : j < rlist.length := by omega
    have hjf : j < flist.length := by omega
    obtain ⟨a, ha⟩ := get?_isSome_of_lt rlist j hjr
    obtain ⟨b, hb⟩ := get?_isSome_of_lt flist j hjf
    have step : channelLoop sat ch jf rlist flist j (m+1) jd out =
        channelLoop sat ch jf rlist flist (j+1) m
          (pairStep sat ch jf jd a b).1 (pairStep sat ch jf jd a b).2 := by
      simp only [channelLoop, ha, hb]
    rw [step]
    exact ih (j+1) _ _ (by omega)

theorem channelText_isSome (sat ch : String) (constDay : Int) (jf : ℚ)
    (rlist flist : List ℚ) (h : rlist.length ≤ flist.length) :
    ∃ s, channelText sat ch constDay jf rlist flist = some s ∧
      (rlist.length = 0 → s = "") := by
  obtain ⟨p, hp⟩ :=
    channelLoop_isSome sat ch jf rlist flist h rlist.length 0 constDay "" (by omega)
  refine ⟨p.2, by simp [channelText, hp], ?_⟩
  intro h0
  have : channelLoop sat ch jf rlist flist 0 rlist.length constDay "" = some (constDay, "") := by
    rw [h0]; rfl
  rw [this] at hp
  simp at hp
  rw [← hp]

/-! ## Claim C1 -/

/-- C1 counterexample: `imbBlock` decodes successfully, yet after
    construction (including orphan trimming) channel 1 has 2 rise times and
    0 fall times — the lengths are NOT equal, because trimming removes only
    one element while the imbalance was 3. -/
theorem trim_leaves_unequal_lengths :
    (mkEvent imbBlock).map
        (fun e => ((e.counts.getD 0 []).length, (e.counts.getD 1 []).length)) =
      some (2, 0) := by decide

/-- C1 (amended): orphan trimming (`trimPair`, applied per channel by
    `mkEvent`) removes exactly the last entry of the longer of the two
    sequences when the lengths differ; the resulting lengths are equal
    exactly when the pre-trim lengths differed by at most one. -/
theorem trimPair_balance_iff (r f : List ℚ) :
    ((trimPair r f).1.length = (trimPair r f).2.length ↔
      r.length ≤ f.length + 1 ∧ f.length ≤ r.length + 1) ∧
    (f.length < r.length → trimPair r f = (r.dropLast, f)) ∧
    (r.length < f.length → trimPair r f = (r, f.dropLast)) := by
  unfold trimPair
  split_ifs with h1 h2 <;>
    refine ⟨?_, fun hh => ?_, fun hh => ?_⟩ <;>
      simp [List.length_dropLast] <;> omega

/-- Witness for `trimPair_balance_iff` at a concrete unbalanced channel. -/
theorem trimPair_balance_iff_witness :
    trimPair [(0:ℚ), 1] [0] = ([0], [0]) :=
  (trimPair_balance_iff [0, 1] [0]).2.1 (by decide)

/-! ## Claim C4 -/

/-- C4: when the first line's event-start bit is unset, `event_finder` does
    not discard the line — no branch of the `if/elif` chain fires, `index`
    is never advanced and the `while` loop repeats the identical state
    forever: for every fuel bound the loop fails to finish. -/
theorem segmenter_diverges_on_unset_start_bit :
    checkBit idleLine = some '0' ∧
    ∀ fuel, efLoop [idleLine] "xxxx" fuel 0 false [] [] = none := by
  refine ⟨by decide, ?_⟩
  intro fuel
  induction fuel with
  | zero => rfl
  | succ n ih => exact ih

/-! ## Claim C5 -/

/-- C5: the clock-frequency estimate used by `mkEvent`.  For 32-bit pps
    references it is always positive: equal references give the nominal
    25000000 Hz; a wrapped (negative) difference is corrected by adding
    `0xFFFFFFFF` (falling back to the nominal rate in case the corrected
    value is exactly zero); a positive difference is used as is. -/
theorem clock_freq_correct (a b : Nat) (ha : a < 4294967296) (hb : b < 4294967296) :
    0 < ppsFreq (a : Int) (b : Int) ∧
    ((a : Int) = (b : Int) → ppsFreq (a : Int) (b : Int) = 25000000) ∧
    ((b : Int) - (a : Int) < 0 →
      ppsFreq (a : Int) (b : Int) = (b : Int) - (a : Int) + 4294967295 ∨
      ((b : Int) - (a : Int) + 4294967295 = 0 ∧ ppsFreq (a : Int) (b : Int) = 25000000)) ∧
    (0 < (b : Int) - (a : Int) → ppsFreq (a : Int) (b : Int) = (b : Int) - (a : Int)) := by
  refine ⟨?_, fun h => ?_, fun h => ?_, fun h => ?_⟩ <;>
    · simp only [ppsFreq]
      split_ifs <;> omega

/-- Witness for `clock_freq_correct` at a wrap of the 32-bit counter. -/
theorem clock_freq_correct_witness :
    0 < ppsFreq ((4294967040 : Nat) : Int) ((256 : Nat) : Int) ∧
    ppsFreq ((4294967040 : Nat) : Int) ((256 : Nat) : Int) = 511 :=
  ⟨(clock_freq_correct 4294967040 256 (by norm_num) (by norm_num)).1, by decide⟩

/-! ## Claim C2 -/

/-- C2: one malformed line (`malLine`, unparsable satellite count) in the
    first block makes the decode exception escape `event_finder` — the whole
    file's processing halts (`some none` = uncaught exception) and not even
    the well-formed second block produces records, although that block
    processed alone yields a full record list.  There is no error containment
    in the code. -/
theorem malformed_line_halts_whole_file :
    eventFinder [malLine, goodLine] "xxxx" = some none ∧
    processEvents [goodLine] "xxxx" =
      some ["xxxx.1  2451544  0.5000000000000000  0.5000000000000000  0.00\n",
            "", "", ""] :=
  ⟨by decide, by decide⟩

/-! ## Claim C3 -/

/-- C3: `twoPairBlock` reconstructs with channel 1 holding two paired
    rise/fall edges, yet `process_events` emits a single output record for
    the channel (the second pair's record only — `out_line` is overwritten,
    not appended, at each pair), not one record per pair. -/
theorem channel_emits_only_last_pair :
    (mkEvent twoPairBlock).map
        (fun e => ((e.counts.getD 0 []).length, (e.counts.getD 1 []).length)) =
      some (2, 2) ∧
    processEvents twoPairBlock "xxxx" =
      some ["xxxx.1  2451544  0.5001220703125000  0.5001220703125000  0.00\n",
            "", "", ""] :=
  ⟨by decide, by decide⟩

/-! ## Claim C6 -/

/-- C6 counterexample: in `boundaryBlock` both fractional-day values of the
    only pair are computed as exactly `1.0` ("at 1.0").  The strict `>`
    comparisons of the code fire neither the day increment (the printed day
    `2451545` is the unincremented base day) nor the subtraction, so the
    printed fractional values are `1.0000000000000000`, outside `[0, 1)`. -/
theorem day_rollover_boundary_counterexample :
    processEvents boundaryBlock "test" =
      some ["test.1  2451545  1.0000000000000000  1.0000000000000000  0.00\n",
            "", "", ""] := by decide

/-- C6 (amended): at each pair, `dayAdjust` (the rollover block of
    `process_events`) increments the running Julian day by exactly 1 — never
    twice — precisely when the rise or the fall fractional value STRICTLY
    exceeds 1 (the redundant truthiness disjunct `(t_rise and t_fall) > 1`
    adds nothing), and subtracts 1 exactly from each value strictly
    exceeding 1; consequently values computed in `[0, 2]` are printed in
    `[0, 1]` (a value of exactly 1 stays 1, so `[0, 1)` does not hold). -/
theorem day_rollover_amended (jd : Int) (tr tf : ℚ) :
    (dayAdjust jd tr tf).1 = jd + (if 1 < tr ∨ 1 < tf then 1 else 0) ∧
    (dayAdjust jd tr tf).2.1 = (if 1 < tr then tr - 1 else tr) ∧
    (dayAdjust jd tr tf).2.2 = (if 1 < tf then tf - 1 else tf) ∧
    (0 ≤ tr → tr ≤ 2 → 0 ≤ (dayAdjust jd tr tf).2.1 ∧ (dayAdjust jd tr tf).2.1 ≤ 1) ∧
    (0 ≤ tf → tf ≤ 2 → 0 ≤ (dayAdjust jd tr tf).2.2 ∧ (dayAdjust jd tr tf).2.2 ≤ 1) := by
  have hcond : (1 < tr ∨ 1 < tf ∨ 1 < pyAnd tr tf) ↔ (1 < tr ∨ 1 < tf) := by
    unfold pyAnd
    constructor
    · rintro (h | h | h)
      · exact Or.inl h
      · exact Or.inr h
      · by_cases h0 : tr = 0
        · rw [if_pos h0, h0] at h; norm_num at h
        · rw [if_neg h0] at h; exact Or.inr h
    · rintro (h | h)
      · exact Or.inl h
      · exact Or.inr (Or.inl h)
  refine ⟨?_, ?_, ?_, fun h0 h2 => ?_, fun h0 h2 => ?_⟩
  · simp only [dayAdjust]
    by_cases h : 1 < tr ∨ 1 < tf
    · rw [if_pos (hcond.mpr h), if_pos h]
    · rw [if_neg (fun hh => h (hcond.mp hh)), if_neg h]
      omega
  · simp only [dayAdjust, qsub_eq, qofInt_eq, Int.cast_one]
  · simp only [dayAdjust, qsub_eq, qofInt_eq, Int.cast_one]
  · simp only [dayAdjust, qsub_eq, qofInt_eq, Int.cast_one]
    split_ifs with h <;> constructor <;> linarith
  · simp only [dayAdjust, qsub_eq, qofInt_eq, Int.cast_one]
    split_ifs with h <;> constructor <;> linarith

/-- Witness for `day_rollover_amended` at a pair whose rise fraction is 1.5. -/
theorem day_rollover_amended_witness :
    (0:ℚ) ≤ 3/2 ∧ (3/2:ℚ) ≤ 2 ∧
    0 ≤ (dayAdjust 0 (3/2) (1/2)).2.1 ∧ (dayAdjust 0 (3/2) (1/2)).2.1 ≤ 1 :=
  ⟨by norm_num, by norm_num,
    ((day_rollover_amended 0 (3/2) (1/2)).2.2.2.1 (by norm_num) (by norm_num)).1,
    ((day_rollover_amended 0 (3/2) (1/2)).2.2.2.1 (by norm_num) (by norm_num)).2⟩

/-! ## Claim C7 -/

/-- C7 counterexample: the 8-bit hex token `40` (bit 6 set) decodes to
    event-start false, valid false, count 0; re-encoding the three sub-fields
    gives 0, not the original 64 — bit 6 is dropped by the decoder, so the
    round trip fails on a valid 8-bit token. -/
theorem roundtrip_fails_on_bit6 :
    int16 "40" = some 64 ∧ (tmcCount "40").map tmcReencode = some 0 ∧ (0 : Int) ≠ 64 := by
  decide

/-- The re-encoding ignores the stored token text. -/
theorem tmcReencode_word_irrel (s : String) (v : Int) :
    tmcReencode (tmcOfVal s v) = tmcReencode (tmcOfVal "" v) := rfl

set_option maxRecDepth 8000 in
/-- Exhaustive check of the round trip over all bytes with bit 6 clear. -/
theorem tmcReencode_bounded :
    ∀ n < 256, n / 64 % 2 = 0 → tmcReencode (tmcOfVal "" (Int.ofNat n)) = Int.ofNat n := by
  decide

/-- C7 (amended): for every 8-bit hex token whose bit 6 — the bit the
    decoder never represents — is clear, decoding with `tmcCount` and
    re-encoding the three sub-fields with `tmcReencode` reconstructs the
    original byte exactly. -/
theorem bitfield_roundtrip_amended (s : String) (n : Nat)
    (hs : int16 s = some (Int.ofNat n)) (h256 : n < 256) (hbit6 : n / 64 % 2 = 0) :
    ∃ t, tmcCount s = some t ∧ tmcReencode t = Int.ofNat n := by
  refine ⟨tmcOfVal s (Int.ofNat n), ?_, ?_⟩
  · simp [tmcCount, hs]
  · rw [tmcReencode_word_irrel]
    exact tmcReencode_bounded n h256 hbit6

/-- Witness for `bitfield_roundtrip_amended` at the token `A5`. -/
theorem bitfield_roundtrip_amended_witness :
    int16 "A5" = some (Int.ofNat 165) ∧
    ∃ t, tmcCount "A5" = some t ∧ tmcReencode t = Int.ofNat 165 :=
  ⟨by decide, bitfield_roundtrip_amended "A5" 165 (by decide) (by decide) (by decide)⟩

/-! ## Claim C9 -/

/-- C9 counterexample: tokens whose value exceeds the bit width decode
    without error: `1FF` (511 > 255) as an 8-bit edge word and `FF`
    (255 > 15) as a 4-bit status word both succeed — `format` pads but never
    truncates, so no width check ever fails. -/
theorem decoder_accepts_overwidth :
    (tmcCount "1FF").isSome = true ∧ int16 "1FF" = some 511 ∧ ¬(511 < 256) ∧
    (daqStatus "FF").isSome = true ∧ int16 "FF" = some 255 ∧ ¬(255 < 16) := by
  decide

/-- C9 (amended): `tmcCount` fails exactly when the token fails to parse as
    hexadecimal, regardless of bit width; `daqStatus` fails exactly when the
    token fails to parse or parses to a negative value (the minus sign then
    occupies an inspected bit position) — again no width bound is enforced. -/
theorem decoder_failure_iff (s : String) :
    ((tmcCount s).isSome = true ↔ (int16 s).isSome = true) ∧
    ((daqStatus s).isSome = true ↔ ∃ v, int16 s = some v ∧ 0 ≤ v) := by
  constructor
  · cases h : int16 s <;> simp [tmcCount, h]
  · cases h : int16 s with
    | none => simp [daqStatus, h]
    | some v =>
      simp only [daqStatus, h, Option.some_bind]
      constructor
      · intro hs
        refine ⟨v, rfl, ?_⟩
        by_contra hneg
        push_neg at hneg
        have h0 : decVal ((formatBin v 4).getD 0 'x') = none := by
          rw [formatBin_neg_head hneg]; decide
        simp only [daqStatusOfVal, h0, Option.none_bind, optBind_constNone] at hs
        simp at hs
      · rintro ⟨v2, hv2, hge⟩
        have hvv : v = v2 := by injection hv2
        subst hvv
        have hlen : 4 ≤ (formatBin v 4).length := formatBin_len hge 4
        obtain ⟨d0, e0⟩ := decVal_of_bin
          (formatBin_chars hge 4 (getD_mem _ 3 'x' (by omega)))
        obtain ⟨d1, e1⟩ := decVal_of_bin
          (formatBin_chars hge 4 (getD_mem _ 2 'x' (by omega)))
        obtain ⟨d2, e2⟩ := decVal_of_bin
          (formatBin_chars hge 4 (getD_mem _ 1 'x' (by omega)))
        obtain ⟨d3, e3⟩ := decVal_of_bin
          (formatBin_chars hge 4 (getD_mem _ 0 'x' (by omega)))
        simp only [List.getD_eq_getElem?_getD] at e0 e1 e2 e3
        simp [daqStatusOfVal, e0, e1, e2, e3]

/-! ## Claim C10 -/

/-- C10 counterexample: `imbBlock` decodes successfully, but the formatter
    does not return a 4-entry record list for it — channel 1 has more rise
    than fall entries left after trimming, so `t_fall[j]` raises `IndexError`
    and `process_events` fails. -/
theorem formatter_crashes_on_imbalance :
    (mkEvent imbBlock).isSome = true ∧ processEvents imbBlock "xxxx" = none := by
  decide

/-- C10 (amended): for every reconstructed `Event` in which no channel has
    more rise than fall entries, the formatter returns exactly 4 entries, one
    per channel in order 1,2,3,4, and a channel with zero paired edges
    contributes the empty string. -/
theorem formatter_four_entries_amended (e : Event) (sat : String) (constDay : Int) (jf : ℚ)
    (h : ∀ k, k < 4 → (e.counts.getD (2*k) []).length ≤ (e.counts.getD (2*k+1) []).length) :
    ∃ l, formatEvent e sat constDay jf = some l ∧ l.length = 4 ∧
      (∀ k, k < 4 → (e.counts.getD (2*k) []).length = 0 → l.getD k "x" = "") := by
  have h0 := h 0 (by norm_num)
  have h1 := h 1 (by norm_num)
  have h2 := h 2 (by norm_num)
  have h3 := h 3 (by norm_num)
  norm_num at h0 h1 h2 h3
  obtain ⟨s1, hs1, hz1⟩ := channelText_isSome sat "1" constDay jf _ _ h0
  obtain ⟨s2, hs2, hz2⟩ := channelText_isSome sat "2" constDay jf _ _ h1
  obtain ⟨s3, hs3, hz3⟩ := channelText_isSome sat "3" constDay jf _ _ h2
  obtain ⟨s4, hs4, hz4⟩ := channelText_isSome sat "4" constDay jf _ _ h3
  refine ⟨[s1, s2, s3, s4], ?_, rfl, ?_⟩
  · simp [formatEvent, hs1, hs2, hs3, hs4]
  · intro k hk hzero
    interval_cases k
    · exact (by simpa [List.getD] using hz1 (by simpa using hzero) :
        List.getD [s1, s2, s3, s4] 0 "x" = "")
    · exact (by simpa [List.getD] using hz2 (by simpa using hzero) :
        List.getD [s1, s2, s3, s4] 1 "x" = "")
    · exact (by simpa [List.getD] using hz3 (by simpa using hzero) :
        List.getD [s1, s2, s3, s4] 2 "x" = "")
    · exact (by simpa [List.getD] using hz4 (by simpa using hzero) :
        List.getD [s1, s2, s3, s4] 3 "x" = "")

/-- Witness for `formatter_four_entries_amended` at a concrete event with one
    paired edge on channel 1 and empty channels elsewhere. -/
theorem formatter_four_entries_amended_witness :
    ∃ l, formatEvent { t_abs := 0, counts := [[0],[0],[],[],[],[],[],[]], utc_day := "" }
        "x" 0 0 = some l ∧ l.length = 4 ∧
      (∀ k, k < 4 →
        ((({ t_abs := 0, counts := [[0],[0],[],[],[],[],[],[]], utc_day := "" } : Event).counts.getD
            (2*k) []).length = 0 → l.getD k "x" = "")) :=
  formatter_four_entries_amended _ "x" 0 0 (by decide)

/-! ## Claim C8 -/

/-- C8 counterexample: a 17-field record decodes successfully (extra fields
    are ignored), and so does a 16-field record whose GPS-validity field is
    `X` — neither the `A` nor the `V` branch fires, the attribute is simply
    left unset and no `MalformedLineError` analogue is raised. -/
theorem line_decoder_lenient_counterexample :
    seventeenFields.length = 17 ∧ (daqLine seventeenFields).isSome = true ∧
    badGpsFields.getD 12 "" = "X" ∧ (daqLine badGpsFields).isSome = true ∧
    (daqLine badGpsFields).map DAQLine.gps_valid = some none := by
  decide

/-- C8 (amended): the line decoder fails exactly when the record has FEWER
    than 16 whitespace-split fields or one of its hex/integer fields (the 8
    edge bytes, the satellite count, the status nibble) fails to parse; a
    field count above 16 and a GPS-validity field outside `{A, V}` do not
    cause failure. -/
theorem line_decoder_failure_iff :
    (∀ ws : List String, ws.length < 16 → daqLine ws = none) ∧
    (∀ w0 w1 w2 w3 w4 w5 w6 w7 w8 w9 w10 w11 w12 w13 w14 w15 : String, ∀ rest : List String,
      ((daqLine (w0 :: w1 :: w2 :: w3 :: w4 :: w5 :: w6 :: w7 :: w8 :: w9 :: w10 :: w11 ::
          w12 :: w13 :: w14 :: w15 :: rest)).isSome = true ↔
        ((tmcCount w1).isSome = true ∧ (tmcCount w2).isSome = true ∧
         (tmcCount w3).isSome = true ∧ (tmcCount w4).isSome = true ∧
         (tmcCount w5).isSome = true ∧ (tmcCount w6).isSome = true ∧
         (tmcCount w7).isSome = true ∧ (tmcCount w8).isSome = true ∧
         (int10 w13).isSome = true ∧ (daqStatus w14).isSome = true))) := by
  constructor
  · intro ws h
    rcases ws with _ | ⟨a0, ws⟩; · rfl
    rcases ws with _ | ⟨a1, ws⟩; · rfl
    rcases ws with _ | ⟨a2, ws⟩; · rfl
    rcases ws with _ | ⟨a3, ws⟩; · rfl
    rcases ws with _ | ⟨a4, ws⟩; · rfl
    rcases ws with _ | ⟨a5, ws⟩; · rfl
    rcases ws with _ | ⟨a6, ws⟩; · rfl
    rcases ws with _ | ⟨a7, ws⟩; · rfl
    rcases ws with _ | ⟨a8, ws⟩; · rfl
    rcases ws with _ | ⟨a9, ws⟩; · rfl
    rcases ws with _ | ⟨a10, ws⟩; · rfl
    rcases ws with _ | ⟨a11, ws⟩; · rfl
    rcases ws with _ | ⟨a12, ws⟩; · rfl
    rcases ws with _ | ⟨a13, ws⟩; · rfl
    rcases ws with _ | ⟨a14, ws⟩; · rfl
    rcases ws with _ | ⟨a15, ws⟩; · rfl
    exfalso
    simp [List.length_cons] at h
    omega
  · intro w0 w1 w2 w3 w4 w5 w6 w7 w8 w9 w10 w11 w12 w13 w14 w15 rest
    constructor
    · intro h
      refine ⟨?_, ?_, ?_, ?_, ?_, ?_, ?_, ?_, ?_, ?_⟩ <;>
        · by_contra hc
          rw [Option.not_isSome_iff_eq_none] at hc
          simp [daqLine, hc, optBind_constNone] at h
    · rintro ⟨c1, c2, c3, c4, c5, c6, c7, c8, c9, c10⟩
      obtain ⟨r1, h1⟩ := Option.isSome_iff_exists.mp c1
      obtain ⟨r2, h2⟩ := Option.isSome_iff_exists.mp c2
      obtain ⟨r3, h3⟩ := Option.isSome_iff_exists.mp c3
      obtain ⟨r4, h4⟩ := Option.isSome_iff_exists.mp c4
      obtain ⟨r5, h5⟩ := Option.isSome_iff_exists.mp c5
      obtain ⟨r6, h6⟩ := Option.isSome_iff_exists.mp c6
      obtain ⟨r7, h7⟩ := Option.isSome_iff_exists.mp c7
      obtain ⟨r8, h8⟩ := Option.isSome_iff_exists.mp c8
      obtain ⟨n9, h9⟩ := Option.isSome_iff_exists.mp c9
      obtain ⟨s10, h10⟩ := Option.isSome_iff_exists.mp c10
      simp [daqLine, h1, h2, h3, h4, h5, h6, h7, h8, h9, h10]

/-- Witness for `line_decoder_failure_iff` at a one-field record. -/
theorem line_decoder_failure_iff_witness : daqLine ["a"] = none :=
  line_decoder_failure_iff.1 ["a"] (by decide)

end Threshold
